import Mathlib

/-!
Shallow embedding of the stepper-motor controller (`src/stepper.ino`):
position state, the named-position table, the shortest-path planner in
`moveToNamedPosition`, and the EEPROM persistence codec
(`saveToEEPROM` / `loadFromEEPROM`), together with the serial command
dispatch loop (`processCommand`).

Arduino `String` names are modelled as lists of byte values (`List Nat`);
the EEPROM is modelled as two address-indexed cell maps, one for the
4-byte `long` cells accessed through `EEPROM.put`/`EEPROM.get` and one for
the byte cells accessed through `EEPROM.write`/`EEPROM.read`.  In the
program the two kinds of access never overlap: `long` cells sit at
addresses 0 and 4 + i*RECORD_SIZE, byte cells at 4 + i*RECORD_SIZE + 4 + j
with j < NAME_SIZE, so the split map is faithful to the byte-addressed
device.
-/

namespace Stepper

/-- `const int NAME_SIZE = 11;` -/
def NAME_SIZE : Nat := 11

/-- `const int RECORD_SIZE = 4 + NAME_SIZE;` -/
def RECORD_SIZE : Nat := 4 + NAME_SIZE

/-- `const int stepsPerRevolution = 200;` -/
def stepsPerRevolution : Int := 200

/-- `const int maxPositions = 10;` -/
def maxPositions : Nat := 10

/-- A name is a sequence of byte values (the characters of an Arduino `String`). -/
abbrev Name := List Nat

/-- The EEPROM device: `long` cells (written by `EEPROM.put`, read by
`EEPROM.get`) and byte cells (written by `EEPROM.write`, read by
`EEPROM.read`), both indexed by byte address. -/
structure EEPROM where
  longs : Nat → Int
  bytes : Nat → Nat

/-- `EEPROM.put(a, v)` for a `long` value. -/
def EEPROM.putLong (e : EEPROM) (a : Nat) (v : Int) : EEPROM :=
  { e with longs := fun x => if x = a then v else e.longs x }

/-- `EEPROM.write(a, c)` for one byte. -/
def EEPROM.writeByte (e : EEPROM) (a : Nat) (v : Nat) : EEPROM :=
  { e with bytes := fun x => if x = a then v else e.bytes x }

/-- A fully erased EEPROM (all cells zero). -/
def emptyEEPROM : EEPROM := { longs := fun _ => 0, bytes := fun _ => 0 }

/-- The program state: the globals `currentPosition`, `resetPosition`,
`positionNames`, `positionValues` (live prefix of the fixed arrays, so
`positionCount` is the list length), the `static long lastSavedPosition`
of `saveToEEPROM`, and the EEPROM contents. -/
structure MachineState where
  currentPosition : Int
  resetPosition : Int
  positionNames : List Name
  positionValues : List Int
  lastSavedPosition : Int
  eeprom : EEPROM

/-- `positionCount` is the number of live table entries. -/
def positionCount (st : MachineState) : Nat := st.positionNames.length

/-- The logical position shown to the user: `currentPosition - resetPosition`. -/
def logicalPosition (st : MachineState) : Int :=
  st.currentPosition - st.resetPosition

/-! ### Persistence codec: `saveToEEPROM` (lines 350-377) -/

/-- The inner loop `for (int j = 0; j < k; j++) EEPROM.write(address+4+j, c)`
of `saveToEEPROM`, writing the first `k` name-slot bytes at `base`:
byte `j` is `name[j]` when `j < name.length` and `'\0'` otherwise. -/
def writeBytesUpTo (base : Nat) (name : Name) (e : EEPROM) : Nat → EEPROM
  | 0 => e
  | k + 1 => (writeBytesUpTo base name e k).writeByte (base + k) (name.getD k 0)

/-- Writing the full `NAME_SIZE`-byte name slot at `base`. -/
def writeSlotName (base : Nat) (name : Name) (e : EEPROM) : EEPROM :=
  writeBytesUpTo base name e NAME_SIZE

/-- One iteration of the record loop of `saveToEEPROM`: record `i` holds
`(positionValues[i], positionNames[i])` when `i < positionCount` and a
zero value with an all-null name slot otherwise. -/
def writeRecord (names : List Name) (values : List Int) (count : Nat)
    (e : EEPROM) (i : Nat) : EEPROM :=
  let address := 4 + i * RECORD_SIZE
  if i < count then
    writeSlotName (address + 4) (names.getD i [])
      (e.putLong address (values.getD i 0))
  else
    writeSlotName (address + 4) [] (e.putLong address 0)

/-- The record loop `for (int i = 0; i < maxPositions; i++)` unrolled as
"write the first `k` records in order". -/
def writeRecords (names : List Name) (values : List Int) (count : Nat)
    (e : EEPROM) : Nat → EEPROM
  | 0 => e
  | k + 1 => writeRecord names values count
      (writeRecords names values count e k) k

/-- The body of `saveToEEPROM` (lines 354-374) without the dirty check:
header `currentPosition` at address 0, then all `maxPositions` records. -/
def saveRecordToEEPROM (st : MachineState) : MachineState :=
  let e := st.eeprom.putLong 0 st.currentPosition
  let e := writeRecords st.positionNames st.positionValues
      (positionCount st) e maxPositions
  { st with eeprom := e, lastSavedPosition := st.currentPosition }

/-- `saveToEEPROM` (lines 350-377): the write happens only when
`currentPosition != lastSavedPosition`. -/
def saveToEEPROM (st : MachineState) : MachineState :=
  if st.currentPosition ≠ st.lastSavedPosition then saveRecordToEEPROM st
  else st

/-! ### Persistence codec: `loadFromEEPROM` (lines 380-417) -/

/-- The `char name[NAME_SIZE]` buffer filled by
`name[j] = EEPROM.read(address + 4 + j)`. -/
def readSlotName (e : EEPROM) (base : Nat) : List Nat :=
  (List.range NAME_SIZE).map fun j => e.bytes (base + j)

/-- `String(name)` of a null-terminated char buffer: the bytes before the
first null. -/
def cString (bs : List Nat) : List Nat := bs.takeWhile (· ≠ 0)

/-- The record-reading loop of `loadFromEEPROM`, starting at record index
`i` with `fuel` slots remaining (the source runs `i` from 0 to
`maxPositions - 1`, breaking on a null first name byte and when the table
is full).  After `name[NAME_SIZE - 1] = '\0'` the constructed `String`
consists of the bytes before the first null among the first
`NAME_SIZE - 1` buffer bytes. -/
def loadRecordsAux (e : EEPROM) : Nat → Nat → List Name × List Int
  | _, 0 => ([], [])
  | i, fuel + 1 =>
    let address := 4 + i * RECORD_SIZE
    if e.bytes (address + 4) = 0 then ([], [])
    else
      let value := e.longs address
      let nm := cString ((readSlotName e (address + 4)).take (NAME_SIZE - 1))
      let rest := loadRecordsAux e (i + 1) fuel
      (nm :: rest.1, value :: rest.2)

/-- `loadFromEEPROM` (lines 380-417): reads the header into
`currentPosition`, resets it to 0 (reporting the anomaly, the `Bool`
component) when it lies outside -100..100, then reloads the table.
`resetPosition` and `lastSavedPosition` are untouched. -/
def loadFromEEPROM (st : MachineState) : MachineState × Bool :=
  let v := st.eeprom.longs 0
  let corrupt := decide (v < -100 ∨ v > 100)
  let pos := if v < -100 ∨ v > 100 then 0 else v
  let loaded := loadRecordsAux st.eeprom 0 maxPositions
  ({ st with currentPosition := pos,
             positionNames := loaded.1,
             positionValues := loaded.2 }, corrupt)

/-- The state after `setup()`: globals zero-initialized,
`lastSavedPosition = -9999`, then `loadFromEEPROM()`. -/
def initState (e : EEPROM) : MachineState :=
  (loadFromEEPROM
    { currentPosition := 0, resetPosition := 0, positionNames := [],
      positionValues := [], lastSavedPosition := -9999, eeprom := e }).1

/-! ### Operations -/

/-- `findNamedPosition` (lines 318-328): index of the first exact match,
or -1. -/
def findNamedPosition (names : List Name) (name : Name) : Int :=
  match names.findIdx? (· = name) with
  | some i => (i : Int)
  | none => -1

/-- `moveMotor` (lines 205-234): a no-op for 0 steps; otherwise the
direction flag is the sign, `|steps|` pulses are emitted, and
`currentPosition += steps * (dir == HIGH ? 1 : -1)`, i.e. the net effect
on `currentPosition` is adding the signed `steps`. -/
def moveMotor (st : MachineState) (steps : Int) : MachineState :=
  if steps = 0 then st
  else { st with currentPosition := st.currentPosition + steps }

/-- The outcome `addNamedPosition` reports on the serial line. -/
inductive AddResult where
  | capacityExceeded
  | duplicateName
  | nameTooLong
  | ok
deriving DecidableEq

/-- `addNamedPosition` (lines 237-263): capacity check, then duplicate
check, then length check (`name.length() > NAME_SIZE - 1`); on success the
entry `(name, currentPosition - resetPosition)` is appended and
`saveToEEPROM()` runs. -/
def addNamedPosition (st : MachineState) (name : Name) : MachineState × AddResult :=
  if positionCount st ≥ maxPositions then (st, .capacityExceeded)
  else if st.positionNames.findIdx? (· = name) ≠ none then (st, .duplicateName)
  else if name.length > NAME_SIZE - 1 then (st, .nameTooLong)
  else
    (saveToEEPROM
      { st with
        positionNames := st.positionNames ++ [name],
        positionValues := st.positionValues ++ [st.currentPosition - st.resetPosition] },
     .ok)

/-- The shortest-path computation of `moveToNamedPosition`
(lines 280-285): `directSteps`, the clockwise and counter-clockwise wrap
candidates (period 200 hard-coded), and
`abs(clockwiseSteps) < abs(counterClockwiseSteps) ? clockwiseSteps : counterClockwiseSteps`. -/
def planSteps (currentRelative targetPosition : Int) : Int :=
  let directSteps := targetPosition - currentRelative
  let clockwiseSteps := if directSteps ≥ 0 then directSteps else 200 + directSteps
  let counterClockwiseSteps := if directSteps ≤ 0 then directSteps else -200 + directSteps
  if |clockwiseSteps| < |counterClockwiseSteps| then clockwiseSteps
  else counterClockwiseSteps

/-- `moveToNamedPosition` (lines 266-292): lookup, shortest-path plan,
`moveMotor`, `saveToEEPROM`; the `Bool` is whether the name was found.
No range check is performed. -/
def moveToNamedPosition (st : MachineState) (name : Name) : MachineState × Bool :=
  match st.positionNames.findIdx? (· = name) with
  | none => (st, false)
  | some index =>
    let targetPosition := st.positionValues.getD index 0
    let currentRelative := st.currentPosition - st.resetPosition
    let shortestSteps := planSteps currentRelative targetPosition
    (saveToEEPROM (moveMotor st shortestSteps), true)

/-- `deleteNamedPosition` (lines 295-315): lookup, then shift every entry
past the match one slot left in both arrays (`List.eraseIdx` on the live
prefix), decrement the count, `saveToEEPROM`; the `Bool` is whether the
name was found. -/
def deleteNamedPosition (st : MachineState) (name : Name) : MachineState × Bool :=
  match st.positionNames.findIdx? (· = name) with
  | none => (st, false)
  | some index =>
    (saveToEEPROM
      { st with
        positionNames := st.positionNames.eraseIdx index,
        positionValues := st.positionValues.eraseIdx index }, true)

/-- The parsed serial commands dispatched by `processCommand`
(the tokenizer itself is out of scope; step counts arrive as the parsed
integer, names as the parsed text). -/
inductive Command where
  | mvl (steps : Int)
  | mvr (steps : Int)
  | rst
  | pos
  | addpos (name : Name)
  | goto (name : Name)
  | dlpos (name : Name)
  | lstpos
deriving DecidableEq

/-- Whether a command is a `GOTO`. -/
def Command.isGoto : Command → Bool
  | .goto _ => true
  | _ => false

/-- `processCommand` (lines 95-189) restricted to its state effects:
`MVL`/`MVR` guard the range -100..100 before moving, `RST` drives the
motor to `resetPosition` and then zeroes both positions, `POS`/`LSTPOS`
only print, and the named-position commands call their operations. -/
def processCommand (st : MachineState) (c : Command) : MachineState :=
  match c with
  | .mvl steps =>
    if steps > 0 then
      if st.currentPosition - steps ≥ -100 then
        saveToEEPROM (moveMotor st (-steps))
      else st
    else st
  | .mvr steps =>
    if steps > 0 then
      if st.currentPosition + steps ≤ 100 then
        saveToEEPROM (moveMotor st steps)
      else st
    else st
  | .rst =>
    let stepsToZero := st.resetPosition - st.currentPosition
    let st' := if stepsToZero ≠ 0 then saveToEEPROM (moveMotor st stepsToZero) else st
    { st' with resetPosition := 0, currentPosition := 0 }
  | .pos => st
  | .addpos name => (addNamedPosition st name).1
  | .goto name => (moveToNamedPosition st name).1
  | .dlpos name => (deleteNamedPosition st name).1
  | .lstpos => st

/-- The `loop()` driver: process a sequence of commands in order. -/
def run (st : MachineState) (cmds : List Command) : MachineState :=
  cmds.foldl processCommand st

/-- The boot-time machine state over a given EEPROM image, before
`loadFromEEPROM` runs: globals zero-initialized, `lastSavedPosition`
at its -9999 initializer (so `initState e = (loadFromEEPROM (bootState e)).1`). -/
def bootState (e : EEPROM) : MachineState :=
  { currentPosition := 0, resetPosition := 0, positionNames := [],
    positionValues := [], lastSavedPosition := -9999, eeprom := e }

/-- An EEPROM image whose header long is `v` and whose other cells are
erased. -/
def headerOnlyEEPROM (v : Int) : EEPROM :=
  { longs := fun a => if a = 0 then v else 0, bytes := fun _ => 0 }

/-- A state whose table is full (`positionCount = maxPositions = 10`). -/
def fullTableState : MachineState :=
  { currentPosition := 0, resetPosition := 0,
    positionNames := [[1], [2], [3], [4], [5], [6], [7], [8], [9], [10]],
    positionValues := [0, 0, 0, 0, 0, 0, 0, 0, 0, 0],
    lastSavedPosition := -9999, eeprom := emptyEEPROM }

/-- A state holding a three-entry table. -/
def threeTableState : MachineState :=
  { currentPosition := 0, resetPosition := 0,
    positionNames := [[65], [66], [67]],
    positionValues := [1, 2, 3],
    lastSavedPosition := -9999, eeprom := emptyEEPROM }

/-! ### Field-preservation lemmas -/

@[simp] lemma saveToEEPROM_currentPosition (st : MachineState) :
    (saveToEEPROM st).currentPosition = st.currentPosition := by
  unfold saveToEEPROM saveRecordToEEPROM; split <;> rfl

@[simp] lemma saveToEEPROM_resetPosition (st : MachineState) :
    (saveToEEPROM st).resetPosition = st.resetPosition := by
  unfold saveToEEPROM saveRecordToEEPROM; split <;> rfl

@[simp] lemma saveToEEPROM_positionNames (st : MachineState) :
    (saveToEEPROM st).positionNames = st.positionNames := by
  unfold saveToEEPROM saveRecordToEEPROM; split <;> rfl

@[simp] lemma saveToEEPROM_positionValues (st : MachineState) :
    (saveToEEPROM st).positionValues = st.positionValues := by
  unfold saveToEEPROM saveRecordToEEPROM; split <;> rfl

@[simp] lemma moveMotor_currentPosition (st : MachineState) (steps : Int) :
    (moveMotor st steps).currentPosition = st.currentPosition + steps := by
  unfold moveMotor; split <;> simp_all

@[simp] lemma moveMotor_resetPosition (st : MachineState) (steps : Int) :
    (moveMotor st steps).resetPosition = st.resetPosition := by
  unfold moveMotor; split <;> rfl

@[simp] lemma moveMotor_positionNames (st : MachineState) (steps : Int) :
    (moveMotor st steps).positionNames = st.positionNames := by
  unfold moveMotor; split <;> rfl

@[simp] lemma moveMotor_positionValues (st : MachineState) (steps : Int) :
    (moveMotor st steps).positionValues = st.positionValues := by
  unfold moveMotor; split <;> rfl

lemma addNamedPosition_currentPosition (st : MachineState) (name : Name) :
    (addNamedPosition st name).1.currentPosition = st.currentPosition := by
  unfold addNamedPosition; split
  · rfl
  · split
    · rfl
    · split <;> simp

lemma addNamedPosition_resetPosition (st : MachineState) (name : Name) :
    (addNamedPosition st name).1.resetPosition = st.resetPosition := by
  unfold addNamedPosition; split
  · rfl
  · split
    · rfl
    · split <;> simp

lemma deleteNamedPosition_currentPosition (st : MachineState) (name : Name) :
    (deleteNamedPosition st name).1.currentPosition = st.currentPosition := by
  unfold deleteNamedPosition
  cases st.positionNames.findIdx? (· = name) <;> simp

lemma deleteNamedPosition_resetPosition (st : MachineState) (name : Name) :
    (deleteNamedPosition st name).1.resetPosition = st.resetPosition := by
  unfold deleteNamedPosition
  cases st.positionNames.findIdx? (· = name) <;> simp

lemma moveToNamedPosition_resetPosition (st : MachineState) (name : Name) :
    (moveToNamedPosition st name).1.resetPosition = st.resetPosition := by
  unfold moveToNamedPosition
  cases st.positionNames.findIdx? (· = name) <;> simp

lemma initState_resetPosition (e : EEPROM) : (initState e).resetPosition = 0 := rfl

/-! ### Claim theorems -/

lemma run_cons (st : MachineState) (c : Command) (rest : List Command) :
    run st (c :: rest) = run (processCommand st c) rest := rfl

lemma processCommand_resetPosition (st : MachineState) (c : Command)
    (h : st.resetPosition = 0) : (processCommand st c).resetPosition = 0 := by
  cases c with
  | mvl s => simp only [processCommand]; split_ifs <;> simp [h]
  | mvr s => simp only [processCommand]; split_ifs <;> simp [h]
  | rst => rfl
  | pos => exact h
  | addpos n =>
    simp only [processCommand]
    rw [addNamedPosition_resetPosition]
    exact h
  | goto n =>
    simp only [processCommand]
    rw [moveToNamedPosition_resetPosition]
    exact h
  | dlpos n =>
    simp only [processCommand]
    rw [deleteNamedPosition_resetPosition]
    exact h
  | lstpos => exact h

lemma run_resetPosition (cmds : List Command) (st : MachineState)
    (h : st.resetPosition = 0) : (run st cmds).resetPosition = 0 := by
  induction cmds generalizing st with
  | nil => exact h
  | cons c rest ih =>
    rw [run_cons]
    exact ih _ (processCommand_resetPosition _ _ h)

lemma initState_range (e : EEPROM) :
    -100 ≤ (initState e).currentPosition ∧ (initState e).currentPosition ≤ 100 := by
  unfold initState loadFromEEPROM
  dsimp only
  split_ifs with h
  · norm_num
  · push_neg at h
    exact ⟨by omega, by omega⟩

lemma processCommand_range (st : MachineState) (c : Command)
    (hc : c.isGoto = false) (h1 : -100 ≤ st.currentPosition)
    (h2 : st.currentPosition ≤ 100) :
    -100 ≤ (processCommand st c).currentPosition ∧
      (processCommand st c).currentPosition ≤ 100 := by
  cases c with
  | mvl s =>
    simp only [processCommand]
    split_ifs with hs hr
    · simp only [saveToEEPROM_currentPosition, moveMotor_currentPosition]
      omega
    · exact ⟨h1, h2⟩
    · exact ⟨h1, h2⟩
  | mvr s =>
    simp only [processCommand]
    split_ifs with hs hr
    · simp only [saveToEEPROM_currentPosition, moveMotor_currentPosition]
      omega
    · exact ⟨h1, h2⟩
    · exact ⟨h1, h2⟩
  | rst => constructor <;> simp [processCommand]
  | pos => exact ⟨h1, h2⟩
  | addpos n =>
    simp only [processCommand]
    rw [addNamedPosition_currentPosition]
    exact ⟨h1, h2⟩
  | goto n => simp [Command.isGoto] at hc
  | dlpos n =>
    simp only [processCommand]
    rw [deleteNamedPosition_currentPosition]
    exact ⟨h1, h2⟩
  | lstpos => exact ⟨h1, h2⟩

lemma run_range (cmds : List Command) (st : MachineState)
    (hc : ∀ c ∈ cmds, c.isGoto = false)
    (h1 : -100 ≤ st.currentPosition) (h2 : st.currentPosition ≤ 100) :
    -100 ≤ (run st cmds).currentPosition ∧ (run st cmds).currentPosition ≤ 100 := by
  induction cmds generalizing st with
  | nil => exact ⟨h1, h2⟩
  | cons c rest ih =>
    rw [run_cons]
    have h' := processCommand_range st c (hc c (List.mem_cons_self c rest)) h1 h2
    exact ih _ (fun x hx => hc x (List.mem_cons_of_mem c hx)) h'.1 h'.2

/-- C5: with current logical position 10, target logical position 190,
and period 200, the shortest-path computation of `moveToNamedPosition`
yields a signed delta of -20 (the wrapping path through zero), not +180. -/
theorem C5_plan_wraps_through_zero : planSteps 10 190 = -20 := by decide

/-- C4 counterexample: in the antipodal tie case (current 0, target 100,
|direct| = period/2 = 100) the planner returns -100, the
backward/decreasing candidate, not the forward/increasing candidate +100
the claim asserts. -/
theorem C4_counterexample : planSteps 0 100 = -100 ∧ planSteps 0 100 ≠ 100 := by
  decide

/-- C4 (amended): in every antipodal tie case (|target - current| =
period/2 = 100), the planner deterministically selects the
backward/decreasing candidate -100 (the negative delta), consistently
across calls (it is a pure function of the two positions). -/
theorem C4_tie_break_is_backward (cur tgt : Int)
    (h : tgt - cur = 100 ∨ tgt - cur = -100) : planSteps cur tgt = -100 := by
  rcases h with h | h <;> simp only [planSteps, h] <;> norm_num

/-- C4 witness: the amended tie-break theorem at current 0, target 100. -/
theorem C4_tie_break_is_backward_witness : planSteps 0 100 = -100 :=
  C4_tie_break_is_backward 0 100 (Or.inl (by decide))

/-- C9: for every step count s > 0 and every starting state,
`moveMotor(-s)` followed by `moveMotor(s)` returns the logical position to
exactly its value before the pair of moves. -/
theorem C9_move_roundtrip (st : MachineState) (s : Int) (h : s > 0) :
    logicalPosition (moveMotor (moveMotor st (-s)) s) = logicalPosition st := by
  unfold logicalPosition
  simp only [moveMotor_currentPosition, moveMotor_resetPosition]
  ring

/-- C9 witness: the round-trip at s = 3 from the freshly booted state. -/
theorem C9_move_roundtrip_witness :
    logicalPosition (moveMotor (moveMotor (initState emptyEEPROM) (-3)) 3)
      = logicalPosition (initState emptyEEPROM) :=
  C9_move_roundtrip (initState emptyEEPROM) 3 (by decide)

/-- C6: for every stored header value outside -100..100, `loadFromEEPROM`
sets `currentPosition` to 0 and reports the corruption anomaly; for every
stored header value inside the range it keeps the value unchanged and
reports no anomaly. -/
theorem C6_load_validates_header (st : MachineState) :
    ((st.eeprom.longs 0 < -100 ∨ st.eeprom.longs 0 > 100) →
      (loadFromEEPROM st).1.currentPosition = 0 ∧ (loadFromEEPROM st).2 = true) ∧
    (-100 ≤ st.eeprom.longs 0 → st.eeprom.longs 0 ≤ 100 →
      (loadFromEEPROM st).1.currentPosition = st.eeprom.longs 0 ∧
        (loadFromEEPROM st).2 = false) := by
  unfold loadFromEEPROM
  constructor
  · intro h
    simp [h]
  · intro h1 h2
    have h : ¬(st.eeprom.longs 0 < -100 ∨ st.eeprom.longs 0 > 100) := by omega
    simp [h]

/-- C6 witness: a header of 500 is clamped to 0 with the anomaly
reported; a header of 42 is kept with no anomaly. -/
theorem C6_load_validates_header_witness :
    ((loadFromEEPROM (bootState (headerOnlyEEPROM 500))).1.currentPosition = 0 ∧
      (loadFromEEPROM (bootState (headerOnlyEEPROM 500))).2 = true) ∧
    ((loadFromEEPROM (bootState (headerOnlyEEPROM 42))).1.currentPosition = 42 ∧
      (loadFromEEPROM (bootState (headerOnlyEEPROM 42))).2 = false) := by
  refine ⟨(C6_load_validates_header (bootState (headerOnlyEEPROM 500))).1 (by decide), ?_⟩
  have h := (C6_load_validates_header (bootState (headerOnlyEEPROM 42))).2
    (by decide) (by decide)
  exact ⟨h.1, h.2⟩

/-- C7 counterexample: on a full table that already contains the name
`[1]`, `addNamedPosition` reports the capacity error, not the duplicate
error the claim asserts (the capacity check precedes the duplicate check). -/
theorem C7_counterexample :
    [1] ∈ fullTableState.positionNames ∧
    (addNamedPosition fullTableState [1]).2 = AddResult.capacityExceeded ∧
    (addNamedPosition fullTableState [1]).2 ≠ AddResult.duplicateName := by
  refine ⟨by decide, by decide, by decide⟩

/-- C7 (amended): for every table state and every name already present in
it, `addNamedPosition` leaves the state completely unchanged, and —
provided the table is not full, since the capacity check runs first —
signals the duplicate-name error. -/
theorem C7_duplicate_add_rejected (st : MachineState) (name : Name)
    (hmem : name ∈ st.positionNames) :
    (positionCount st < maxPositions →
      (addNamedPosition st name).2 = AddResult.duplicateName) ∧
    (addNamedPosition st name).1 = st := by
  have hfind : st.positionNames.findIdx? (· = name) ≠ none := by
    intro hnone
    have := List.findIdx?_eq_none_iff.mp hnone name hmem
    simp at this
  unfold addNamedPosition
  by_cases hc : positionCount st ≥ maxPositions
  · rw [if_pos hc]
    exact ⟨fun h => absurd h (by omega), rfl⟩
  · rw [if_neg hc, if_pos hfind]
    exact ⟨fun _ => rfl, rfl⟩

/-- C7 witness: the amended theorem on the three-entry table, adding the
already-present name `[65]`. -/
theorem C7_duplicate_add_rejected_witness :
    (addNamedPosition threeTableState [65]).2 = AddResult.duplicateName ∧
    (addNamedPosition threeTableState [65]).1 = threeTableState :=
  ⟨(C7_duplicate_add_rejected threeTableState [65] (by decide)).1 (by decide),
   (C7_duplicate_add_rejected threeTableState [65] (by decide)).2⟩

/-- C8: deleting a name found at index i removes exactly the entry at
index i from both parallel arrays (every later entry shifts one slot
left, names and values moving together, and the relative order of the
remaining entries is preserved: the result is `take i ++ drop (i+1)` of
each array) and reduces the count from k to k - 1; deleting an absent
name reports not-found and changes nothing. -/
theorem C8_delete_shifts_and_compacts (st : MachineState) (name : Name) :
    (st.positionNames.findIdx? (· = name) = none →
      deleteNamedPosition st name = (st, false)) ∧
    (∀ i, st.positionNames.findIdx? (· = name) = some i →
      (deleteNamedPosition st name).1.positionNames
          = st.positionNames.take i ++ st.positionNames.drop (i + 1) ∧
      (deleteNamedPosition st name).1.positionValues
          = st.positionValues.take i ++ st.positionValues.drop (i + 1) ∧
      positionCount (deleteNamedPosition st name).1 = positionCount st - 1 ∧
      (deleteNamedPosition st name).2 = true) := by
  constructor
  · intro hnone
    unfold deleteNamedPosition
    rw [hnone]
  · intro i hi
    obtain ⟨hlt, -, -⟩ := List.findIdx?_eq_some_iff_getElem.mp hi
    unfold deleteNamedPosition positionCount
    rw [hi]
    simp only [saveToEEPROM_positionNames, saveToEEPROM_positionValues]
    refine ⟨List.eraseIdx_eq_take_drop_succ _ _,
            List.eraseIdx_eq_take_drop_succ _ _, ?_, trivial⟩
    rw [List.length_eraseIdx, if_pos hlt]

/-- C8 witness: on the three-entry table, deleting the middle name `[66]`
(found at index 1) and the absent name `[99]`. -/
theorem C8_delete_shifts_and_compacts_witness :
    (deleteNamedPosition threeTableState [99] = (threeTableState, false)) ∧
    ((deleteNamedPosition threeTableState [66]).1.positionNames
        = threeTableState.positionNames.take 1 ++ threeTableState.positionNames.drop 2 ∧
      (deleteNamedPosition threeTableState [66]).1.positionValues
        = threeTableState.positionValues.take 1 ++ threeTableState.positionValues.drop 2 ∧
      positionCount (deleteNamedPosition threeTableState [66]).1
        = positionCount threeTableState - 1 ∧
      (deleteNamedPosition threeTableState [66]).2 = true) :=
  ⟨(C8_delete_shifts_and_compacts threeTableState [99]).1 (by decide),
   (C8_delete_shifts_and_compacts threeTableState [66]).2 1 (by decide)⟩

/-! ### EEPROM write/read characterization, for the persistence round-trip -/

lemma writeBytesUpTo_longs (base : Nat) (name : Name) (e : EEPROM) (k : Nat) :
    (writeBytesUpTo base name e k).longs = e.longs := by
  induction k with
  | zero => rfl
  | succ k ih => simp [writeBytesUpTo, EEPROM.writeByte, ih]

lemma writeBytesUpTo_bytes (base : Nat) (name : Name) (e : EEPROM) (k x : Nat) :
    (writeBytesUpTo base name e k).bytes x =
      if base ≤ x ∧ x < base + k then name.getD (x - base) 0 else e.bytes x := by
  induction k with
  | zero =>
    rw [if_neg (by omega)]
    rfl
  | succ k ih =>
    show (if x = base + k then name.getD k 0
      else (writeBytesUpTo base name e k).bytes x) = _
    by_cases hx : x = base + k
    · rw [if_pos hx, if_pos (by omega)]
      subst hx
      rw [Nat.add_sub_cancel_left]
    · rw [if_neg hx, ih]
      by_cases hin : base ≤ x ∧ x < base + k
      · rw [if_pos hin, if_pos ⟨hin.1, by omega⟩]
      · rw [if_neg hin, if_neg (by omega)]

lemma putLong_longs (e : EEPROM) (a : Nat) (v : Int) (x : Nat) :
    (e.putLong a v).longs x = if x = a then v else e.longs x := rfl

lemma putLong_bytes (e : EEPROM) (a : Nat) (v : Int) :
    (e.putLong a v).bytes = e.bytes := rfl

lemma writeRecord_longs (names : List Name) (values : List Int) (count : Nat)
    (e : EEPROM) (i : Nat) (x : Nat) :
    (writeRecord names values count e i).longs x =
      if x = 4 + i * RECORD_SIZE then (if i < count then values.getD i 0 else 0)
      else e.longs x := by
  unfold writeRecord writeSlotName
  dsimp only
  by_cases hi : i < count
  · rw [if_pos hi, writeBytesUpTo_longs, putLong_longs, if_pos hi]
  · rw [if_neg hi, writeBytesUpTo_longs, putLong_longs, if_neg hi]

lemma writeRecord_bytes (names : List Name) (values : List Int) (count : Nat)
    (e : EEPROM) (i : Nat) (x : Nat) :
    (writeRecord names values count e i).bytes x =
      if 4 + i * RECORD_SIZE + 4 ≤ x ∧ x < 4 + i * RECORD_SIZE + 4 + NAME_SIZE then
        (if i < count then (names.getD i []).getD (x - (4 + i * RECORD_SIZE + 4)) 0
         else 0)
      else e.bytes x := by
  unfold writeRecord writeSlotName
  dsimp only
  by_cases hi : i < count
  · rw [if_pos hi, writeBytesUpTo_bytes, putLong_bytes]
    by_cases hx : 4 + i * RECORD_SIZE + 4 ≤ x ∧ x < 4 + i * RECORD_SIZE + 4 + NAME_SIZE
    · rw [if_pos hx, if_pos hx, if_pos hi]
    · rw [if_neg hx, if_neg hx]
  · rw [if_neg hi, writeBytesUpTo_bytes, putLong_bytes]
    by_cases hx : 4 + i * RECORD_SIZE + 4 ≤ x ∧ x < 4 + i * RECORD_SIZE + 4 + NAME_SIZE
    · rw [if_pos hx, if_pos hx, if_neg hi, List.getD_nil]
    · rw [if_neg hx, if_neg hx]

lemma writeRecords_longs_zero (names : List Name) (values : List Int)
    (count : Nat) (e : EEPROM) (k : Nat) :
    (writeRecords names values count e k).longs 0 = e.longs 0 := by
  induction k with
  | zero => rfl
  | succ k ih =>
    rw [writeRecords, writeRecord_longs, if_neg ?_, ih]
    simp only [RECORD_SIZE, NAME_SIZE]
    omega

lemma writeRecords_longs (names : List Name) (values : List Int) (count : Nat)
    (e : EEPROM) (k i : Nat) :
    i < k →
    (writeRecords names values count e k).longs (4 + i * RECORD_SIZE)
      = if i < count then values.getD i 0 else 0 := by
  induction k with
  | zero => intro h; omega
  | succ k ih =>
    intro hik
    rw [writeRecords, writeRecord_longs]
    by_cases hi : i = k
    · subst hi
      rw [if_pos rfl]
    · rw [if_neg ?_, ih (by omega)]
      simp only [RECORD_SIZE, NAME_SIZE]
      omega

lemma writeRecords_bytes (names : List Name) (values : List Int) (count : Nat)
    (e : EEPROM) (k i j : Nat) :
    i < k → j < NAME_SIZE →
    (writeRecords names values count e k).bytes (4 + i * RECORD_SIZE + 4 + j)
      = if i < count then (names.getD i []).getD j 0 else 0 := by
  induction k with
  | zero => intro h _; omega
  | succ k ih =>
    intro hik hj
    rw [writeRecords, writeRecord_bytes]
    by_cases hi : i = k
    · subst hi
      have hcond : 4 + i * RECORD_SIZE + 4 ≤ 4 + i * RECORD_SIZE + 4 + j ∧
          4 + i * RECORD_SIZE + 4 + j < 4 + i * RECORD_SIZE + 4 + NAME_SIZE := by
        omega
      rw [if_pos hcond]
      have hidx : 4 + i * RECORD_SIZE + 4 + j - (4 + i * RECORD_SIZE + 4) = j := by
        omega
      rw [hidx]
    · have hcond : ¬(4 + k * RECORD_SIZE + 4 ≤ 4 + i * RECORD_SIZE + 4 + j ∧
          4 + i * RECORD_SIZE + 4 + j < 4 + k * RECORD_SIZE + 4 + NAME_SIZE) := by
        simp only [RECORD_SIZE, NAME_SIZE] at hj ⊢
        omega
      rw [if_neg hcond, ih (by omega) hj]

lemma getD_map_range (nm : List Nat) (k : Nat) (hk : nm.length ≤ k) :
    (List.range k).map (fun j => nm.getD j 0)
      = nm ++ List.replicate (k - nm.length) 0 := by
  induction nm generalizing k with
  | nil =>
    simp only [List.getD_nil, List.map_const', List.length_range,
      List.nil_append, List.length_nil, Nat.sub_zero]
  | cons a tl ih =>
    cases k with
    | zero => simp at hk
    | succ k =>
      rw [List.range_succ_eq_map, List.map_cons, List.map_map]
      have hfs : ((fun j => (a :: tl).getD j 0) ∘ Nat.succ) = fun j => tl.getD j 0 := by
        funext j
        simp [List.getD_cons_succ]
      rw [List.getD_cons_zero, hfs, ih k (by simpa using hk)]
      simp [Nat.succ_sub_succ]

lemma takeWhile_append_replicate (nm : List Nat) (m : Nat)
    (hz : ∀ b ∈ nm, b ≠ 0) :
    (nm ++ List.replicate m 0).takeWhile (· ≠ 0) = nm := by
  induction nm with
  | nil =>
    cases m with
    | zero => rfl
    | succ m => simp [List.replicate_succ, List.takeWhile_cons]
  | cons a tl ih =>
    have ha : a ≠ 0 := hz a (List.mem_cons_self a tl)
    rw [List.cons_append, List.takeWhile_cons, if_pos (by simpa using ha),
      ih (fun b hb => hz b (List.mem_cons_of_mem a hb))]

lemma cString_padded (nm : List Nat) (k : Nat) (hk : nm.length ≤ k)
    (hz : ∀ b ∈ nm, b ≠ 0) :
    cString ((List.range k).map fun j => nm.getD j 0) = nm := by
  unfold cString
  rw [getD_map_range nm k hk]
  exact takeWhile_append_replicate nm _ hz

lemma loadRecordsAux_reconstructs (E : EEPROM) (names : List Name)
    (values : List Int)
    (hlen : values.length = names.length) (hcount : names.length ≤ maxPositions)
    (hg : ∀ nm ∈ names, nm ≠ [] ∧ nm.length ≤ NAME_SIZE - 1 ∧ ∀ b ∈ nm, b ≠ 0)
    (hbytes : ∀ i < maxPositions, ∀ j < NAME_SIZE,
      E.bytes (4 + i * RECORD_SIZE + 4 + j)
        = if i < names.length then (names.getD i []).getD j 0 else 0)
    (hlongs : ∀ i < maxPositions,
      E.longs (4 + i * RECORD_SIZE)
        = if i < names.length then values.getD i 0 else 0) :
    ∀ fuel i, i + fuel = maxPositions →
      loadRecordsAux E i fuel = (names.drop i, values.drop i) := by
  intro fuel
  induction fuel with
  | zero =>
    intro i hi
    rw [loadRecordsAux, List.drop_eq_nil_of_le (by omega),
      List.drop_eq_nil_of_le (by omega)]
  | succ f ih =>
    intro i hi
    have hilt : i < maxPositions := by omega
    have hb0 := hbytes i hilt 0 (by simp [NAME_SIZE])
    rw [Nat.add_zero] at hb0
    rw [loadRecordsAux]
    dsimp only
    by_cases hic : i < names.length
    · rw [if_pos hic] at hb0
      have hnm : names.getD i [] = names.get ⟨i, hic⟩ := by
        rw [List.getD_eq_getElem _ _ hic]
        rfl
      have hmem : names.get ⟨i, hic⟩ ∈ names := List.get_mem names i hic
      obtain ⟨hne, hlen10, hz⟩ := hg _ hmem
      have hs : ¬(E.bytes (4 + i * RECORD_SIZE + 4) = 0) := by
        rw [hb0, hnm]
        cases hh : names.get ⟨i, hic⟩ with
        | nil => exact absurd hh hne
        | cons b tl =>
          rw [List.getD_cons_zero]
          exact hz b (by rw [hh]; exact List.mem_cons_self b tl)
      rw [if_neg hs]
      have hslot : readSlotName E (4 + i * RECORD_SIZE + 4)
          = (List.range NAME_SIZE).map fun j => (names.get ⟨i, hic⟩).getD j 0 := by
        unfold readSlotName
        refine List.map_congr_left ?_
        intro j hj
        rw [List.mem_range] at hj
        rw [hbytes i hilt j hj, if_pos hic, hnm]
      have hiv : i < values.length := by omega
      have hval : E.longs (4 + i * RECORD_SIZE) = values.get ⟨i, hiv⟩ := by
        rw [hlongs i hilt, if_pos hic, List.getD_eq_getElem _ _ hiv]
        rfl
      have htake : (readSlotName E (4 + i * RECORD_SIZE + 4)).take (NAME_SIZE - 1)
          = (List.range (NAME_SIZE - 1)).map fun j => (names.get ⟨i, hic⟩).getD j 0 := by
        rw [hslot, ← List.map_take, List.take_range]
        rfl
      have hname : cString ((readSlotName E (4 + i * RECORD_SIZE + 4)).take (NAME_SIZE - 1))
          = names.get ⟨i, hic⟩ := by
        rw [htake]
        exact cString_padded _ _ hlen10 hz
      rw [hname, hval, ih (i + 1) (by omega),
        List.drop_eq_getElem_cons hic, List.drop_eq_getElem_cons hiv]
      rfl
    · rw [if_neg hic] at hb0
      rw [if_pos hb0, List.drop_eq_nil_of_le (by omega),
        List.drop_eq_nil_of_le (by omega)]

/-- C1 counterexample: a one-entry table whose name is empty (length 0,
which satisfies the claim's "length at most slot width minus 1") is
destroyed by the round-trip: the save writes a null first byte into the
slot, which `loadFromEEPROM` treats as the end-of-table sentinel, so the
reloaded table is empty rather than equal to the original. -/
theorem C1_counterexample :
    (loadFromEEPROM (saveToEEPROM ({ currentPosition := 0, resetPosition := 0,
                                     positionNames := [[]], positionValues := [5],
                                     lastSavedPosition := -9999,
                                     eeprom := emptyEEPROM } : MachineState))).1.positionNames
      = [] ∧
    ([] : List Name) ≠ [[]] := by
  refine ⟨by decide, by decide⟩

/-- C1 (amended): for every table state of size 0..capacity whose names
are nonempty, contain no NUL byte, and have length at most
`NAME_SIZE - 1`, whose parallel arrays agree in length, and whose
`currentPosition` lies in -100..100 and differs from `lastSavedPosition`
(as at boot, where the static initializer is -9999, so the dirty-check
does not suppress the write), `saveToEEPROM` followed by `loadFromEEPROM`
reconstructs exactly the same `(name, value)` pairs in the same order and
the same `currentPosition`. -/
theorem C1_persistence_roundtrip (st : MachineState)
    (hlen : st.positionValues.length = st.positionNames.length)
    (hcap : positionCount st ≤ maxPositions)
    (hg : ∀ nm ∈ st.positionNames,
      nm ≠ [] ∧ nm.length ≤ NAME_SIZE - 1 ∧ ∀ b ∈ nm, b ≠ 0)
    (hlo : -100 ≤ st.currentPosition) (hhi : st.currentPosition ≤ 100)
    (hdirty : st.currentPosition ≠ st.lastSavedPosition) :
    (loadFromEEPROM (saveToEEPROM st)).1.positionNames = st.positionNames ∧
    (loadFromEEPROM (saveToEEPROM st)).1.positionValues = st.positionValues ∧
    (loadFromEEPROM (saveToEEPROM st)).1.currentPosition = st.currentPosition := by
  rw [saveToEEPROM, if_pos hdirty]
  have hE : (saveRecordToEEPROM st).eeprom
      = writeRecords st.positionNames st.positionValues (positionCount st)
          (st.eeprom.putLong 0 st.currentPosition) maxPositions := rfl
  have hlongs0 : (saveRecordToEEPROM st).eeprom.longs 0 = st.currentPosition := by
    rw [hE, writeRecords_longs_zero, putLong_longs, if_pos rfl]
  have hbytes : ∀ i < maxPositions, ∀ j < NAME_SIZE,
      (saveRecordToEEPROM st).eeprom.bytes (4 + i * RECORD_SIZE + 4 + j)
        = if i < st.positionNames.length
          then (st.positionNames.getD i []).getD j 0 else 0 := by
    intro i hi j hj
    rw [hE, writeRecords_bytes _ _ _ _ _ _ _ hi hj]
    rfl
  have hlongs : ∀ i < maxPositions,
      (saveRecordToEEPROM st).eeprom.longs (4 + i * RECORD_SIZE)
        = if i < st.positionNames.length then st.positionValues.getD i 0 else 0 := by
    intro i hi
    rw [hE, writeRecords_longs _ _ _ _ _ _ hi]
    rfl
  have hload := loadRecordsAux_reconstructs (saveRecordToEEPROM st).eeprom
    st.positionNames st.positionValues hlen hcap hg hbytes hlongs maxPositions 0 rfl
  rw [loadFromEEPROM]
  dsimp only
  rw [hload, List.drop_zero, List.drop_zero, hlongs0]
  have hrange : ¬(st.currentPosition < -100 ∨ st.currentPosition > 100) := by omega
  rw [if_neg hrange]
  exact ⟨rfl, rfl, rfl⟩

/-- C1 witness: the amended round-trip on a concrete three-entry table at
position 0 with `lastSavedPosition` at its boot value. -/
theorem C1_persistence_roundtrip_witness :
    (loadFromEEPROM (saveToEEPROM threeTableState)).1.positionNames
        = threeTableState.positionNames ∧
    (loadFromEEPROM (saveToEEPROM threeTableState)).1.positionValues
        = threeTableState.positionValues ∧
    (loadFromEEPROM (saveToEEPROM threeTableState)).1.currentPosition
        = threeTableState.currentPosition :=
  C1_persistence_roundtrip threeTableState (by decide) (by decide) (by decide)
    (by decide) (by decide) (by decide)

/-- C2: the dirty-check in `saveToEEPROM` is keyed on `currentPosition`
alone but guards the whole write, including the table records.  From boot
over an erased EEPROM, ADDPOS "A" then ADDPOS "B" (both at position 0)
leaves the in-memory table with both entries, yet the EEPROM holds only
the first: the second `saveToEEPROM` call is skipped because
`currentPosition` still equals `lastSavedPosition`, so reloading yields
`[A]` while the unconditional write body would have persisted `[A, B]`.
The table mutation therefore never reaches non-volatile storage,
contradicting the claim. -/
theorem C2_dirty_check_skips_table_flush :
    (run (initState emptyEEPROM)
        [Command.addpos [65], Command.addpos [66]]).positionNames = [[65], [66]] ∧
    (loadFromEEPROM (run (initState emptyEEPROM)
        [Command.addpos [65], Command.addpos [66]])).1.positionNames = [[65]] ∧
    (loadFromEEPROM (saveRecordToEEPROM (run (initState emptyEEPROM)
        [Command.addpos [65], Command.addpos [66]]))).1.positionNames
      = [[65], [66]] := by
  refine ⟨by decide, by decide, by decide⟩

/-- C10: in every reachable state (any command sequence from boot over
any EEPROM image), `resetPosition` equals 0, so the derived
`logicalPosition` is identical to `currentPosition` — in particular the
MVL/MVR range guards on `currentPosition` coincide with guards on
`logicalPosition`. -/
theorem C10_resetPosition_always_zero (e : EEPROM) (cmds : List Command) :
    (run (initState e) cmds).resetPosition = 0 ∧
    logicalPosition (run (initState e) cmds)
      = (run (initState e) cmds).currentPosition := by
  have h := run_resetPosition cmds (initState e) (initState_resetPosition e)
  refine ⟨h, ?_⟩
  unfold logicalPosition
  rw [h]
  ring

/-- C3 counterexample: the reachable sequence MVR 90, ADDPOS "A",
MVL 190, GOTO "A" completes a planner-driven move that leaves
`logicalPosition` at -110, outside the safe range -100..100, with no
rejection — `moveToNamedPosition` performs no range check. -/
theorem C3_counterexample :
    logicalPosition (run (initState emptyEEPROM)
      [Command.mvr 90, Command.addpos [65], Command.mvl 190, Command.goto [65]])
      = -110 := by decide

/-- C3 (amended): every completed MVL/MVR move keeps `currentPosition`
(which equals `logicalPosition`) within -100..100 — for any command
sequence free of GOTO, the position stays in the safe range — and an
MVL/MVR move that would leave the range is rejected with the state
completely unchanged (so before any pulses). Moves through the
shortest-path planner (GOTO) are not range-checked and can leave the
range. -/
theorem C3_guarded_moves_stay_in_range (e : EEPROM) (cmds : List Command)
    (h : ∀ c ∈ cmds, c.isGoto = false) :
    (-100 ≤ (run (initState e) cmds).currentPosition ∧
      (run (initState e) cmds).currentPosition ≤ 100) ∧
    (∀ st : MachineState, ∀ s : Int, s > 0 → st.currentPosition - s < -100 →
      processCommand st (.mvl s) = st) ∧
    (∀ st : MachineState, ∀ s : Int, s > 0 → 100 < st.currentPosition + s →
      processCommand st (.mvr s) = st) := by
  refine ⟨?_, ?_, ?_⟩
  · have hi := initState_range e
    exact run_range cmds (initState e) h hi.1 hi.2
  · intro st s hs hr
    simp only [processCommand]
    rw [if_pos hs, if_neg (by omega)]
  · intro st s hs hr
    simp only [processCommand]
    rw [if_pos hs, if_neg (by omega)]

/-- C3 witness: the amended theorem applied to the GOTO-free sequence
MVR 5 from an erased EEPROM, and to the rejection of MVL 300 at the boot
state. -/
theorem C3_guarded_moves_stay_in_range_witness :
    (-100 ≤ (run (initState emptyEEPROM) [Command.mvr 5]).currentPosition ∧
      (run (initState emptyEEPROM) [Command.mvr 5]).currentPosition ≤ 100) ∧
    processCommand (bootState emptyEEPROM) (.mvl 300) = bootState emptyEEPROM :=
  ⟨(C3_guarded_moves_stay_in_range emptyEEPROM [Command.mvr 5] (by decide)).1,
   (C3_guarded_moves_stay_in_range emptyEEPROM [] (by decide)).2.1
     (bootState emptyEEPROM) 300 (by decide) (by decide)⟩

end Stepper
